import Mathlib

/-!
Verification of the quorum-set construction and validation core of
`src/main/Config.cpp` (stellar-core).

The C++ code is shallowly embedded as follows:

* `PublicKey` / `NodeID` are modelled as opaque strings.  Key encoding and
  decoding (`KeyUtils`, strkey) is out of scope per the specification, so
  `parseNodeID` on a plain key string is modelled as the identity.
* `SCPQuorumSet` is the XDR structure `{threshold, validators, innerSets}`.
* Machine integers: all the counts involved (`validators.size()`,
  `innerSets.size()`, thresholds, percentages) are tiny unsigned values in the
  C++ code, far below any wrap-around boundary on the paths modelled here
  (the parser rejects empty groups before the only subtraction that could
  underflow, namely `memberCount*percent - 1` at `memberCount = 0`, can leak
  into an accepted tree), so they are modelled as `Nat`; `FAILURE_SAFETY`,
  an `int32_t` carrying the sentinel `-1`, is modelled as `Int`.
* Fallible code (`throw std::invalid_argument(msg)`) returns
  `Except String α` carrying the message.
* External capabilities (`LocalNode::findClosestVBlocking`,
  `isQuorumSetSane`, the JSON rendering used by `Config::toString`) are taken
  as parameters; `normalizeQSet` (from `scp/QuorumSetUtils`, outside this
  repository) is modelled from the spec.
-/

/-- Public keys are opaque 32-byte identities in the source; modelled as
strings. -/
abbrev PublicKey := String

/-- Validator quality tiers, in the order of the C++ enum backing
`kQualities = {"LOW", "MEDIUM", "HIGH"}` (so `LOW < MEDIUM < HIGH` as enum
values). -/
inductive ValidatorQuality where
  | VALIDATOR_LOW_QUALITY
  | VALIDATOR_MED_QUALITY
  | VALIDATOR_HIGH_QUALITY
deriving DecidableEq

/-- Numeric value of the C++ enum constant, used for `<`/`>` comparisons on
qualities in the source. -/
def ValidatorQuality.toNat : ValidatorQuality → Nat
  | .VALIDATOR_LOW_QUALITY => 0
  | .VALIDATOR_MED_QUALITY => 1
  | .VALIDATOR_HIGH_QUALITY => 2

/-- `Config::ValidatorEntry` from `Config.h`: name, key, home domain, quality
and whether the validator declares a history archive. -/
structure ValidatorEntry where
  mName : String
  mKey : PublicKey
  mHomeDomain : String
  mQuality : ValidatorQuality
  mHasHistory : Bool
deriving DecidableEq

/-- The XDR `SCPQuorumSet`: a threshold, a flat list of validator keys and a
list of nested quorum sets. -/
inductive SCPQuorumSet where
  | mk (threshold : Nat) (validators : List PublicKey) (innerSets : List SCPQuorumSet)

/-- Threshold field accessor. -/
def SCPQuorumSet.threshold : SCPQuorumSet → Nat
  | .mk t _ _ => t

/-- Validators field accessor. -/
def SCPQuorumSet.validators : SCPQuorumSet → List PublicKey
  | .mk _ vs _ => vs

/-- Inner-sets field accessor. -/
def SCPQuorumSet.innerSets : SCPQuorumSet → List SCPQuorumSet
  | .mk _ _ ss => ss

/-- `qset.validators.size() + qset.innerSets.size()`: the number of direct
children of a node (`topSize` in `computeDefaultThreshold`, `topLevelCount`
in `validateConfig`). -/
def topSize (qset : SCPQuorumSet) : Nat :=
  qset.validators.length + qset.innerSets.length

/-- `computeDefaultThreshold` from `Config.cpp` (lines 48-72): if
`simpleMajority` is set and there are no inner sets, only require a majority
`n - (n-1)/2`; otherwise assume byzantine failures and require `n - (n-1)/3`;
an empty group gets threshold 0. -/
def computeDefaultThreshold (qset : SCPQuorumSet) (simpleMajority : Bool) : Nat :=
  if topSize qset = 0 then 0
  else if simpleMajority = true ∧ qset.innerSets.length = 0 then
    topSize qset - (topSize qset - 1) / 2
  else
    topSize qset - (topSize qset - 1) / 3

/-- The specification's pure threshold function (spec section 4.2):
`computeThreshold(memberCount, policy)` depending only on the member count and
the policy (`byzantine = true` for the Byzantine rule, `false` for simple
majority).  Kept separate from `computeDefaultThreshold`, which is translated
from the source, so the two can be compared. -/
def computeThreshold (memberCount : Nat) (byzantine : Bool) : Nat :=
  if memberCount = 0 then 0
  else if byzantine = true then memberCount - (memberCount - 1) / 3
  else memberCount - (memberCount - 1) / 2

/-- The percent-based threshold computed at the end of `Config::loadQset`
(lines 283-288): `1 + ((memberCount*percent - 1) / 100)`, a round-up of
`memberCount*percent/100`. -/
def computeThresholdFromPercent (memberCount percent : Nat) : Nat :=
  1 + (memberCount * percent - 1) / 100

/-- Shape of a cpptoml value as far as `Config::loadQset` inspects it: an
integer, an array of strings (validator key strings), or a nested table. -/
inductive TomlValue where
  | vInt (i : Int)
  | vStrArr (ss : List String)
  | vTable (items : List (String × TomlValue))

/-- A cpptoml table: key/value items in iteration order. -/
abbrev TomlTable := List (String × TomlValue)

mutual

/-- `Config::loadQset` (lines 218-295): rejects nesting deeper than 3 levels
(`level > 2`), folds over the group's items collecting the threshold percent
(default 67), validator keys, and recursively parsed inner sets, then computes
the group's threshold from the percent and rejects empty groups.  Key-string
parsing (`parseNodeID`) is the identity here since key encoding is external. -/
def loadQset (items : TomlTable) (level : Nat) : Except String SCPQuorumSet :=
  if level > 2 then .error "too many levels in quorum set"
  else
    match loadQsetLoop items level 67 [] [] with
    | .error e => .error e
    | .ok (tp, vals, inners) =>
      let threshold := computeThresholdFromPercent (vals.length + inners.length) tp
      if threshold = 0 ∨ (vals.length = 0 ∧ inners.length = 0) then
        .error "invalid quorum set definition"
      else .ok (.mk threshold vals inners)
termination_by (sizeOf items, 1)

/-- The item loop of `Config::loadQset` (lines 235-281), with the accumulated
threshold percent, validator keys and inner sets threaded explicitly.  Errors
raised while parsing a nested group are wrapped with the failing group's key
(source: `" while parsing '" + item.first + "'"`; the quote characters are
dropped here). -/
def loadQsetLoop (items : TomlTable) (level tp : Nat) (vals : List PublicKey)
    (inners : List SCPQuorumSet) : Except String (Nat × List PublicKey × List SCPQuorumSet) :=
  match items with
  | [] => .ok (tp, vals, inners)
  | (k, val) :: rest =>
    if k = "THRESHOLD_PERCENT" then
      match val with
      | .vInt f =>
        if f ≤ 0 ∨ 100 < f then .error "invalid THRESHOLD_PERCENT"
        else loadQsetLoop rest level f.toNat vals inners
      | _ => .error "invalid THRESHOLD_PERCENT"
    else if k = "VALIDATORS" then
      match val with
      | .vStrArr ss => loadQsetLoop rest level tp (vals ++ ss) inners
      | _ => .error "VALIDATORS must be an array"
    else
      match val with
      | .vTable sub =>
        match loadQset sub (level + 1) with
        | .error e => .error (e ++ " while parsing " ++ k)
        | .ok q => loadQsetLoop rest level tp vals (inners ++ [q])
      | _ => .error ("invalid quorum set, should be a group while parsing " ++ k)
termination_by (sizeOf items, 0)

end

/-- The strict-weak-order "comes before" relation of the `std::sort` comparator
in `Config::generateQuorumSet` (lines 1428-1439) in its non-strict form:
`a` may precede `b` iff `a`'s quality is higher, or the qualities are equal and
`a`'s home domain is at most `b`'s (quality descending, home domain
ascending). -/
def validatorBefore (a b : ValidatorEntry) : Prop :=
  b.mQuality.toNat < a.mQuality.toNat ∨
    (a.mQuality.toNat = b.mQuality.toNat ∧ a.mHomeDomain ≤ b.mHomeDomain)

instance instDecRelValidatorBefore : DecidableRel validatorBefore := fun a b => by
  unfold validatorBefore
  infer_instance

instance instTotalValidatorBefore : IsTotal ValidatorEntry validatorBefore where
  total a b := by
    unfold validatorBefore
    rcases Nat.lt_trichotomy a.mQuality.toNat b.mQuality.toNat with h | h | h
    · exact Or.inr (Or.inl h)
    · rcases le_total a.mHomeDomain b.mHomeDomain with hd | hd
      · exact Or.inl (Or.inr ⟨h, hd⟩)
      · exact Or.inr (Or.inr ⟨h.symm, hd⟩)
    · exact Or.inl (Or.inl h)

instance instTransValidatorBefore : IsTrans ValidatorEntry validatorBefore where
  trans a b c hab hbc := by
    unfold validatorBefore at *
    rcases hab with h1 | ⟨h1, d1⟩ <;> rcases hbc with h2 | ⟨h2, d2⟩
    · exact Or.inl (Nat.lt_trans h2 h1)
    · exact Or.inl (by omega)
    · exact Or.inl (by omega)
    · exact Or.inr ⟨by omega, le_trans d1 d2⟩

/-- The sort performed at the start of `Config::generateQuorumSet`: quality
descending, then home domain ascending (`std::sort` leaves ties between
equivalent elements in unspecified order; any sort w.r.t. the comparator is a
faithful model). -/
def sortValidators (validators : List ValidatorEntry) : List ValidatorEntry :=
  List.insertionSort validatorBefore validators

/-- The flat inner set built for one same-home-domain run in
`Config::generateQuorumSetHelper`: its validators are the run's keys and its
threshold is `computeDefaultThreshold(innerSet, true)`. -/
def innerSetOf (run : List ValidatorEntry) : SCPQuorumSet :=
  SCPQuorumSet.mk
    (computeDefaultThreshold (.mk 0 (run.map ValidatorEntry.mKey) []) true)
    (run.map ValidatorEntry.mKey) []

/-- A node of the generated tree: no direct validators, the given inner sets,
and threshold `computeDefaultThreshold(ret, false)` as assigned at the end of
`Config::generateQuorumSetHelper`. -/
def qsetNode (inners : List SCPQuorumSet) : SCPQuorumSet :=
  SCPQuorumSet.mk (computeDefaultThreshold (.mk 0 [] inners) false) [] inners

/-- Size of the first-step case split of `generateQuorumSetHelper`: 0 when the
head of the list (if any) already has the current quality, 1 otherwise.  Used
only for termination. -/
def genExtra (l : List ValidatorEntry) (q : ValidatorQuality) : Nat :=
  match l with
  | [] => 0
  | v :: _ => if v.mQuality = q then 0 else 1

/-- Termination measure for `generateQuorumSetHelper` and `specGenHelper`. -/
def genMeasure (l : List ValidatorEntry) (q : ValidatorQuality) : Nat :=
  2 * l.length + genExtra l q

/-- `Config::generateQuorumSetHelper` (lines 1374-1421).  The C++ while-loop
consumes, chunk by chunk, maximal runs of consecutive validators sharing the
leader's home domain as long as the chunk leader has the current quality;
each chunk must be quality-homogeneous ("must have same quality"), HIGH-quality
chunks must have at least 3 members ("must have redundancy of at least 3"), and
each becomes one flat inner set.  Once the leader's quality differs, a
strictly lower quality is required ("must be ascending") and the remainder is
parsed recursively as one final inner set.  The loop is rendered as recursion
on the list consuming one chunk per step; the node threshold, assigned once at
the end in C++, is recomputed per step by `qsetNode`, which is equivalent
because it depends only on the final list of inner sets. -/
def generateQuorumSetHelper : List ValidatorEntry → ValidatorQuality → Except String SCPQuorumSet
  | [], _ => .ok (qsetNode [])
  | v :: rest, curQuality =>
    if v.mQuality = curQuality then
      let run := (v :: rest).takeWhile (fun w => w.mHomeDomain == v.mHomeDomain)
      let remaining := (v :: rest).dropWhile (fun w => w.mHomeDomain == v.mHomeDomain)
      match run.find? (fun w => w.mQuality != v.mQuality) with
      | some w =>
        .error ("Validators " ++ v.mName ++ " and " ++ w.mName ++ " must have same quality")
      | none =>
        if run.length < 3 ∧ v.mQuality = ValidatorQuality.VALIDATOR_HIGH_QUALITY then
          .error ("High quality validator " ++ v.mName ++
            " must have redundancy of at least 3")
        else
          match generateQuorumSetHelper remaining curQuality with
          | .error e => .error e
          | .ok sub => .ok (qsetNode (innerSetOf run :: sub.innerSets))
    else
      if curQuality.toNat < v.mQuality.toNat then
        .error ("invalid validator quality for " ++ v.mName ++ " (must be ascending)")
      else
        match generateQuorumSetHelper (v :: rest) v.mQuality with
        | .error e => .error e
        | .ok lowQ => .ok (qsetNode [lowQ])
termination_by l curQuality => genMeasure l curQuality
decreasing_by
  · have hdw : ∀ (p : ValidatorEntry → Bool) (t : List ValidatorEntry),
        (t.dropWhile p).length ≤ t.length := by
      intro p t
      induction t with
      | nil => simp
      | cons a s ih =>
        rw [List.dropWhile_cons]
        split
        · exact Nat.le_trans ih (Nat.le_succ _)
        · simp
    have hd : (List.dropWhile (fun w => w.mHomeDomain == v.mHomeDomain) (v :: rest)).length
        ≤ rest.length := by
      rw [List.dropWhile_cons]
      simp only [beq_self_eq_true, if_true]
      exact hdw _ rest
    have hex : ∀ (t : List ValidatorEntry) (q2 : ValidatorQuality), genExtra t q2 ≤ 1 := by
      intro t q2
      cases t with
      | nil => simp [genExtra]
      | cons a s =>
        simp only [genExtra]
        split <;> omega
    have h1 := hex (List.dropWhile (fun w => w.mHomeDomain == v.mHomeDomain) (v :: rest))
      curQuality
    have ha : genExtra (v :: rest) curQuality = 0 := by
      simp only [genExtra]
      rw [if_pos (by assumption : v.mQuality = curQuality)]
    simp only [genMeasure, ha, List.length_cons]
    omega
  · have ha : genExtra (v :: rest) curQuality = 1 := by
      simp only [genExtra]
      rw [if_neg (by assumption : ¬ v.mQuality = curQuality)]
    have hb : genExtra (v :: rest) v.mQuality = 0 := by
      simp only [genExtra]
      simp
    simp only [genMeasure, ha, hb, List.length_cons]
    omega

/-- Contiguous same-home-domain runs of a validator list: the decomposition the
specification describes for one quality tier. -/
def domainChunks : List ValidatorEntry → List (List ValidatorEntry)
  | [] => []
  | v :: rest =>
    ((v :: rest).takeWhile (fun w => w.mHomeDomain == v.mHomeDomain)) ::
      domainChunks ((v :: rest).dropWhile (fun w => w.mHomeDomain == v.mHomeDomain))
termination_by l => l.length
decreasing_by
  have hdw : ∀ (p : ValidatorEntry → Bool) (t : List ValidatorEntry),
      (t.dropWhile p).length ≤ t.length := by
    intro p t
    induction t with
    | nil => simp
    | cons a s ih =>
      rw [List.dropWhile_cons]
      split
      · exact Nat.le_trans ih (Nat.le_succ _)
      · simp
  rw [List.dropWhile_cons]
  simp only [beq_self_eq_true, if_true, List.length_cons]
  exact Nat.lt_succ_of_le (hdw _ _)

/-- The tree the specification's words describe for the generator (spec
section 4.4 and claim C3), written from the spec rather than the source: take
the maximal prefix of the current quality tier, cut it into contiguous
same-home-domain runs, make each run one flat inner set with threshold
`computeThreshold(n, SimpleMajority)`, append one recursively built inner set
when strictly lower-quality validators remain, and give the node threshold
`computeThreshold(innerSets.len(), Byzantine)`. -/
def specGenHelper (l : List ValidatorEntry) (q : ValidatorQuality) : SCPQuorumSet :=
  match h : l.dropWhile (fun w => w.mQuality == q) with
  | [] =>
    let inners := (domainChunks (l.takeWhile (fun w => w.mQuality == q))).map
      (fun run => SCPQuorumSet.mk (computeThreshold run.length false)
        (run.map ValidatorEntry.mKey) [])
    SCPQuorumSet.mk (computeThreshold inners.length true) [] inners
  | w :: rest2 =>
    let inners := (domainChunks (l.takeWhile (fun w2 => w2.mQuality == q))).map
      (fun run => SCPQuorumSet.mk (computeThreshold run.length false)
        (run.map ValidatorEntry.mKey) [])
    let all := inners ++ [specGenHelper (w :: rest2) w.mQuality]
    SCPQuorumSet.mk (computeThreshold all.length true) [] all
termination_by genMeasure l q
decreasing_by
  have hdw : ∀ (p : ValidatorEntry → Bool) (t : List ValidatorEntry),
      (t.dropWhile p).length ≤ t.length := by
    intro p t
    induction t with
    | nil => simp
    | cons a s ih =>
      rw [List.dropWhile_cons]
      split
      · exact Nat.le_trans ih (Nat.le_succ _)
      · simp
  have hex : ∀ (t : List ValidatorEntry) (q2 : ValidatorQuality), genExtra t q2 ≤ 1 := by
    intro t q2
    cases t with
    | nil => simp [genExtra]
    | cons a s =>
      simp only [genExtra]
      split <;> omega
  cases l with
  | nil => simp at h
  | cons v restl =>
    rw [List.dropWhile_cons] at h
    by_cases hq : (v.mQuality == q) = true
    · rw [if_pos hq] at h
      have hlen : (w :: rest2).length ≤ restl.length := by
        rw [← h]
        exact hdw _ restl
      have h2 := hex (w :: rest2) w.mQuality
      simp only [genMeasure, List.length_cons] at *
      omega
    · rw [if_neg hq] at h
      injection h with h1 h2
      subst h1
      subst h2
      have hvq : ¬ v.mQuality = q := by
        intro hc
        exact hq (by simp [hc])
      have ha : genExtra (v :: restl) q = 1 := by
        simp only [genExtra]
        rw [if_neg hvq]
      have hb : genExtra (v :: restl) v.mQuality = 0 := by
        simp only [genExtra]
        simp
      simp only [genMeasure, ha, hb, List.length_cons]
      omega

instance instInhabitedSCPQuorumSet : Inhabited SCPQuorumSet :=
  ⟨SCPQuorumSet.mk 0 [] []⟩

/-- Modelled from the spec: `normalizeQSet` lives in `scp/QuorumSetUtils`,
which is not part of this repository; per the spec (section 6,
`normalizeTree`) it collapses redundant single-child nesting, i.e. a node
whose only child is a single inner set is replaced by that inner set. -/
def normalizeQSet : SCPQuorumSet → SCPQuorumSet
  | .mk t vs ss =>
    let ss2 := ss.attach.map (fun x => normalizeQSet x.1)
    if vs.length = 0 ∧ ss2.length = 1 then ss2.headI
    else .mk t vs ss2
decreasing_by
  have := List.sizeOf_lt_of_mem x.2
  simp only [SCPQuorumSet.mk.sizeOf_spec]
  omega

/-- `Config::generateQuorumSet` (lines 1423-1445): sort by quality descending
then home domain ascending, build the tree starting at HIGH quality, then
normalize. -/
def generateQuorumSet (validators : List ValidatorEntry) : Except String SCPQuorumSet :=
  match generateQuorumSetHelper (sortValidators validators)
      ValidatorQuality.VALIDATOR_HIGH_QUALITY with
  | .error e => .error e
  | .ok res => .ok (normalizeQSet res)

/-- All validator identities reachable anywhere in a quorum-set tree, in
pre-order; `LocalNode::forAllNodes` (external) visits exactly these, and
`validateConfig` only uses whether the resulting set is empty. -/
def forAllNodesList : SCPQuorumSet → List PublicKey
  | .mk _ vs ss => vs ++ (ss.attach.map (fun x => forAllNodesList x.1)).flatten
decreasing_by
  have := List.sizeOf_lt_of_mem x.2
  simp only [SCPQuorumSet.mk.sizeOf_spec]
  omega

/-- The `FAILURE_SAFETY == -1` derivation step of `Config::validateConfig`
(lines 1134-1144): when the configured value is the sentinel `-1`, set it to
`topLevelCount - minSize` where `minSize = computeDefaultThreshold(QUORUM_SET,
!mixed)`; otherwise keep the configured value. -/
def deriveFailureSafety (qset : SCPQuorumSet) (failureSafety : Int) (mixed : Bool) : Int :=
  if failureSafety = -1 then
    (topSize qset : Int) - (computeDefaultThreshold qset (!mixed) : Int)
  else failureSafety

/-- `Config::validateConfig` (lines 1115-1193).  The two external oracles are
taken as parameters: `vBlockingSize` is the size of the set returned by
`LocalNode::findClosestVBlocking` and `isSane` is the result of
`isQuorumSetSane(QUORUM_SET, !UNSAFE_QUORUM)`.  Returns the final value of
`FAILURE_SAFETY` on success and the thrown message on failure. -/
def validateConfig (qset : SCPQuorumSet) (failureSafety : Int)
    (unsafeQuorum mixed : Bool) (vBlockingSize : Nat) (isSane : Bool) :
    Except String Int :=
  if (forAllNodesList qset).length = 0 then
    .error "no validators defined in VALIDATORS/QUORUM_SET"
  else
    let minSize := computeDefaultThreshold qset (!mixed)
    let fs := deriveFailureSafety qset failureSafety mixed
    if (vBlockingSize : Int) ≤ fs then
      .error "FAILURE_SAFETY incompatible with QUORUM_SET"
    else if unsafeQuorum = false ∧ fs = 0 then
      .error "SCP unsafe"
    else if unsafeQuorum = false ∧ qset.threshold < minSize then
      .error "SCP unsafe"
    else if isSane = false then
      .error "Invalid QUORUM_SET"
    else .ok fs

/-- `Config::addSelfToValidators` (lines 545-566): appends a "self" entry with
the node's public key and home domain, taking the quality from the domain
quality map, or fails when the node's home domain has no declared quality. -/
def addSelfToValidators (validators : List ValidatorEntry)
    (domainQualityMap : List (String × ValidatorQuality))
    (nodeHomeDomain : String) (nodeKey : PublicKey) :
    Except String (List ValidatorEntry) :=
  match domainQualityMap.lookup nodeHomeDomain with
  | some q => .ok (validators ++ [⟨"self", nodeKey, nodeHomeDomain, q, false⟩])
  | none => .error "Must specify a matching HOME_DOMAINS for self"

/-- The guarded call to `addSelfToValidators` in `Config::processConfig`
(lines 937-942): self is added only when the node is a validator and it is not
the case that the validator list is empty while an explicit `QUORUM_SET` key is
present ("if only QUORUM_SET is specified: we don't populate validators at
all"). -/
def addSelfStep (nodeIsValidator hasQuorumSetKey : Bool)
    (validators : List ValidatorEntry)
    (domainQualityMap : List (String × ValidatorQuality))
    (nodeHomeDomain : String) (nodeKey : PublicKey) :
    Except String (List ValidatorEntry) :=
  if nodeIsValidator = true ∧ ¬ (validators.length = 0 ∧ hasQuorumSetKey = true) then
    addSelfToValidators validators domainQualityMap nodeHomeDomain nodeKey
  else .ok validators

/-- The `QUORUM_SET` branch of `Config::processConfig` (lines 960-987): the
auto-generated quorum set is rendered (`Config::toString`, whose JSON
rendering is external and is taken here as the `render` parameter), the
explicit `QUORUM_SET` group is parsed and rendered, and if the rendered forms
differ while the validator list is non-empty and `UNSAFE_QUORUM` is not set,
the load fails with "SCP unsafe"; otherwise the parsed set is kept. -/
def quorumSetOverrideStep (render : SCPQuorumSet → String) (unsafeQuorum : Bool)
    (validators : List ValidatorEntry) (group : TomlTable) :
    Except String SCPQuorumSet :=
  match generateQuorumSet validators with
  | .error e => .error e
  | .ok autoQSet =>
    match loadQset group 0 with
    | .error e => .error e
    | .ok qset =>
      if render qset ≠ render autoQSet ∧ validators.length ≠ 0 ∧ unsafeQuorum = false then
        .error "SCP unsafe"
      else .ok qset

/-- The per-node part of the `QuorumSetNode` invariant of claim C8: threshold
at least 1, threshold at most the number of direct children, and at least one
child. -/
def qsetNodeOk (q : SCPQuorumSet) : Prop :=
  1 ≤ q.threshold ∧ q.threshold ≤ topSize q ∧ 1 ≤ topSize q

/-- The full `QuorumSetNode` invariant for operator-supplied trees: every node
down to the depth cap satisfies `qsetNodeOk`, and nodes at depth 2 have no
inner sets (so the tree has at most 3 levels: root at depth 0, nested at
depths 1-2). -/
def qsetWellFormed3 (q : SCPQuorumSet) : Prop :=
  qsetNodeOk q ∧ ∀ s ∈ q.innerSets, qsetNodeOk s ∧
    ∀ t ∈ s.innerSets, qsetNodeOk t ∧ t.innerSets.length = 0

theorem dropWhile_length_le {α : Type} (p : α → Bool) (l : List α) :
    (l.dropWhile p).length ≤ l.length := by
  induction l with
  | nil => simp
  | cons a t ih =>
    rw [List.dropWhile_cons]
    split
    · exact Nat.le_trans ih (Nat.le_succ _)
    · simp

theorem mem_takeWhile_pred {α : Type} (p : α → Bool) (l : List α) :
    ∀ x ∈ l.takeWhile p, p x = true := by
  induction l with
  | nil => simp
  | cons a t ih =>
    rw [List.takeWhile_cons]
    split
    · intro x hx
      rcases List.mem_cons.mp hx with h | h
      · subst h
        assumption
      · exact ih x h
    · simp

theorem takeWhile_append_all {α : Type} (p : α → Bool) (xs ys : List α)
    (h : ∀ x ∈ xs, p x = true) :
    (xs ++ ys).takeWhile p = xs ++ ys.takeWhile p := by
  induction xs with
  | nil => simp
  | cons a t ih =>
    rw [List.cons_append, List.takeWhile_cons, if_pos (h a (List.mem_cons_self a t))]
    rw [ih (fun x hx => h x (List.mem_cons_of_mem a hx))]
    rfl

theorem dropWhile_append_all {α : Type} (p : α → Bool) (xs ys : List α)
    (h : ∀ x ∈ xs, p x = true) :
    (xs ++ ys).dropWhile p = ys.dropWhile p := by
  induction xs with
  | nil => simp
  | cons a t ih =>
    rw [List.cons_append, List.dropWhile_cons, if_pos (h a (List.mem_cons_self a t))]
    exact ih (fun x hx => h x (List.mem_cons_of_mem a hx))

theorem takeWhile_cons_neg {α : Type} (p : α → Bool) (a : α) (l : List α)
    (h : p a = false) : (a :: l).takeWhile p = [] := by
  rw [List.takeWhile_cons, if_neg (by simp [h])]

theorem dropWhile_cons_neg {α : Type} (p : α → Bool) (a : α) (l : List α)
    (h : p a = false) : (a :: l).dropWhile p = a :: l := by
  rw [List.dropWhile_cons, if_neg (by simp [h])]

theorem dropWhile_head_false {α : Type} (p : α → Bool) (l : List α) (a : α) (t : List α)
    (h : l.dropWhile p = a :: t) : p a = false := by
  induction l with
  | nil => simp at h
  | cons b s ih =>
    rw [List.dropWhile_cons] at h
    by_cases hb : p b = true
    · rw [if_pos hb] at h
      exact ih h
    · rw [if_neg hb] at h
      injection h with h1 h2
      subst h1
      exact Bool.not_eq_true _ ▸ hb

/-- C5: for every member count `n ≥ 1`, the Byzantine default threshold
(`computeDefaultThreshold` over a group of `n` children with `simpleMajority`
false, or any group with inner sets) equals `n - (n-1)/3`, so the number of
tolerated failures `n - threshold` is exactly `(n-1)/3`. -/
theorem computeDefaultThreshold_byzantine (qset : SCPQuorumSet) (simpleMajority : Bool)
    (n : Nat) (hn : topSize qset = n) (h1 : 1 ≤ n)
    (hbyz : simpleMajority = false ∨ qset.innerSets.length ≠ 0) :
    computeDefaultThreshold qset simpleMajority = n - (n - 1) / 3 ∧
    n - computeDefaultThreshold qset simpleMajority = (n - 1) / 3 := by
  have hne : ¬ topSize qset = 0 := by omega
  have hcase : ¬ (simpleMajority = true ∧ qset.innerSets.length = 0) := by
    rcases hbyz with hb | hb
    · intro hc
      rw [hb] at hc
      exact Bool.false_ne_true hc.1
    · intro hc
      exact hb hc.2
  have heq : computeDefaultThreshold qset simpleMajority = n - (n - 1) / 3 := by
    unfold computeDefaultThreshold
    rw [if_neg hne, if_neg hcase, hn]
  refine ⟨heq, ?_⟩
  rw [heq]
  omega

/-- C5 witness: a flat group of 4 members with the Byzantine rule gets
threshold 3 and tolerates exactly 1 failure. -/
theorem computeDefaultThreshold_byzantine_witness :
    computeDefaultThreshold (SCPQuorumSet.mk 0 ["a", "b", "c", "d"] []) false = 4 - (4 - 1) / 3 ∧
    4 - computeDefaultThreshold (SCPQuorumSet.mk 0 ["a", "b", "c", "d"] []) false = (4 - 1) / 3 :=
  computeDefaultThreshold_byzantine (SCPQuorumSet.mk 0 ["a", "b", "c", "d"] []) false 4
    (by decide) (by decide) (Or.inl rfl)

/-- C6: for every member count `n ≥ 1`, the simple-majority threshold
(`computeDefaultThreshold` over a flat group of `n` members with
`simpleMajority` true and no inner sets) equals `n - (n-1)/2`, is a strict
majority (`2*threshold > n`) and is the minimal such majority
(`2*(threshold-1) <= n`). -/
theorem computeDefaultThreshold_simple_majority (qset : SCPQuorumSet) (n : Nat)
    (hn : topSize qset = n) (h1 : 1 ≤ n) (hflat : qset.innerSets.length = 0) :
    computeDefaultThreshold qset true = n - (n - 1) / 2 ∧
    n < 2 * computeDefaultThreshold qset true ∧
    2 * (computeDefaultThreshold qset true - 1) ≤ n := by
  have hne : ¬ topSize qset = 0 := by omega
  have heq : computeDefaultThreshold qset true = n - (n - 1) / 2 := by
    unfold computeDefaultThreshold
    rw [if_neg hne, if_pos ⟨rfl, hflat⟩, hn]
  refine ⟨heq, ?_, ?_⟩ <;> rw [heq] <;> omega

/-- C6 witness: a flat group of 5 members gets simple-majority threshold 3,
which is a strict majority and minimal. -/
theorem computeDefaultThreshold_simple_majority_witness :
    computeDefaultThreshold (SCPQuorumSet.mk 0 ["a", "b", "c", "d", "e"] []) true =
      5 - (5 - 1) / 2 ∧
    5 < 2 * computeDefaultThreshold (SCPQuorumSet.mk 0 ["a", "b", "c", "d", "e"] []) true ∧
    2 * (computeDefaultThreshold (SCPQuorumSet.mk 0 ["a", "b", "c", "d", "e"] []) true - 1) ≤ 5 :=
  computeDefaultThreshold_simple_majority (SCPQuorumSet.mk 0 ["a", "b", "c", "d", "e"] []) 5
    (by decide) (by decide) (by decide)

/-- C7: the percent-based threshold of the manual parser is
`1 + ((n*p - 1) / 100)`; at `p = 100` it is exactly `n` for every `n ≥ 1`, it
is at least 1 for every valid percentage, and at `n = 4`, `p = 50` it is 2. -/
theorem computeThresholdFromPercent_bounds (n p : Nat) (h1 : 1 ≤ n) (hp1 : 1 ≤ p)
    (hp2 : p ≤ 100) :
    computeThresholdFromPercent n p = 1 + (n * p - 1) / 100 ∧
    computeThresholdFromPercent n 100 = n ∧
    1 ≤ computeThresholdFromPercent n p ∧
    computeThresholdFromPercent 4 50 = 2 := by
  unfold computeThresholdFromPercent
  refine ⟨rfl, by omega, by omega, by norm_num⟩

/-- C7 witness: instantiated at `n = 4`, `p = 50`. -/
theorem computeThresholdFromPercent_bounds_witness :
    computeThresholdFromPercent 4 50 = 1 + (4 * 50 - 1) / 100 ∧
    computeThresholdFromPercent 4 100 = 4 ∧
    1 ≤ computeThresholdFromPercent 4 50 ∧
    computeThresholdFromPercent 4 50 = 2 :=
  computeThresholdFromPercent_bounds 4 50 (by decide) (by decide) (by decide)

/-- C1 counterexample: with `mixedDomains = false` and a root that has three
inner sets, `validateConfig` derives `FAILURE_SAFETY` from
`computeDefaultThreshold(QUORUM_SET, true)`, which falls back to the
Byzantine rule because inner sets are present, so the derived value (0) is not
`topLevelCount - computeThreshold(topLevelCount, SimpleMajority)` (which is 1)
as the claim states for the non-mixed case. -/
theorem deriveFailureSafety_not_simple_majority :
    deriveFailureSafety
      (SCPQuorumSet.mk 3 []
        [SCPQuorumSet.mk 1 ["a"] [], SCPQuorumSet.mk 1 ["b"] [], SCPQuorumSet.mk 1 ["c"] []])
      (-1) false ≠
    (topSize (SCPQuorumSet.mk 3 []
        [SCPQuorumSet.mk 1 ["a"] [], SCPQuorumSet.mk 1 ["b"] [], SCPQuorumSet.mk 1 ["c"] []]) : Int) -
      (computeThreshold
        (topSize (SCPQuorumSet.mk 3 []
          [SCPQuorumSet.mk 1 ["a"] [], SCPQuorumSet.mk 1 ["b"] [],
            SCPQuorumSet.mk 1 ["c"] []]))
        false : Int) := by
  decide

/-- C1 (amended): when `FAILURE_SAFETY` is the sentinel `-1`, `validateConfig`
derives it as `topLevelCount - minSize` with
`minSize = computeDefaultThreshold(QUORUM_SET, !mixed)`, and this `minSize`
equals the spec's `computeThreshold(topLevelCount, policy)` with the Byzantine
policy when `mixedDomains` is true or the root has inner sets, and the
simple-majority policy when `mixedDomains` is false and the root is flat. -/
theorem deriveFailureSafety_eq (qset : SCPQuorumSet) (failureSafety : Int) (mixed : Bool)
    (hfs : failureSafety = -1) :
    deriveFailureSafety qset failureSafety mixed =
      (topSize qset : Int) - (computeDefaultThreshold qset (!mixed) : Int) ∧
    computeDefaultThreshold qset (!mixed) =
      computeThreshold (topSize qset) (mixed || decide (qset.innerSets.length ≠ 0)) := by
  constructor
  · unfold deriveFailureSafety
    rw [if_pos hfs]
  · by_cases h0 : topSize qset = 0
    · unfold computeDefaultThreshold computeThreshold
      rw [if_pos h0, if_pos h0]
    · cases mixed with
      | true =>
        unfold computeDefaultThreshold computeThreshold
        rw [if_neg h0, if_neg h0, if_neg (by simp), if_pos (by simp)]
      | false =>
        by_cases hin : qset.innerSets.length = 0
        · unfold computeDefaultThreshold computeThreshold
          rw [if_neg h0, if_neg h0, if_pos ⟨rfl, hin⟩, if_neg (by simp [hin])]
        · unfold computeDefaultThreshold computeThreshold
          rw [if_neg h0, if_neg h0, if_neg (by simp [hin]), if_pos (by simp [hin])]

/-- C1 witness: a flat three-member root with `mixedDomains = false` derives
`FAILURE_SAFETY = 3 - 2 = 1` via the simple-majority rule. -/
theorem deriveFailureSafety_eq_witness :
    deriveFailureSafety (SCPQuorumSet.mk 2 ["a", "b", "c"] []) (-1) false =
      (topSize (SCPQuorumSet.mk 2 ["a", "b", "c"] []) : Int) -
        (computeDefaultThreshold (SCPQuorumSet.mk 2 ["a", "b", "c"] []) (!false) : Int) ∧
    computeDefaultThreshold (SCPQuorumSet.mk 2 ["a", "b", "c"] []) (!false) =
      computeThreshold (topSize (SCPQuorumSet.mk 2 ["a", "b", "c"] []))
        (false || decide ((SCPQuorumSet.mk 2 ["a", "b", "c"] []).innerSets.length ≠ 0)) :=
  deriveFailureSafety_eq (SCPQuorumSet.mk 2 ["a", "b", "c"] []) (-1) false rfl

/-- C2: on a tree with at least one validator, `validateConfig` fails with
"FAILURE_SAFETY incompatible with QUORUM_SET" exactly when the (derived)
`FAILURE_SAFETY` is not strictly below the v-blocking set size; unless
`UNSAFE_QUORUM` is set, a surviving zero `FAILURE_SAFETY` or a root threshold
below `minSize` fails with "SCP unsafe"; in particular an explicitly
configured `FAILURE_SAFETY = 0` without the unsafe override fails with
"SCP unsafe" whenever the v-blocking size is positive (as it is on any
non-trivial tree). -/
theorem validateConfig_failure_modes (qset : SCPQuorumSet) (failureSafety : Int)
    (unsafeQuorum mixed : Bool) (vBlockingSize : Nat) (isSane : Bool)
    (hnodes : (forAllNodesList qset).length ≠ 0) :
    (validateConfig qset failureSafety unsafeQuorum mixed vBlockingSize isSane =
        .error "FAILURE_SAFETY incompatible with QUORUM_SET" ↔
      (vBlockingSize : Int) ≤ deriveFailureSafety qset failureSafety mixed) ∧
    (unsafeQuorum = false →
      deriveFailureSafety qset failureSafety mixed < (vBlockingSize : Int) →
      (deriveFailureSafety qset failureSafety mixed = 0 ∨
        qset.threshold < computeDefaultThreshold qset (!mixed)) →
      validateConfig qset failureSafety unsafeQuorum mixed vBlockingSize isSane =
        .error "SCP unsafe") ∧
    (failureSafety = 0 → unsafeQuorum = false → 1 ≤ vBlockingSize →
      validateConfig qset failureSafety unsafeQuorum mixed vBlockingSize isSane =
        .error "SCP unsafe") := by
  unfold validateConfig
  rw [if_neg hnodes]
  refine ⟨?_, ?_, ?_⟩
  · constructor
    · intro h
      by_contra hc
      rw [if_neg hc] at h
      split at h <;> simp_all
      split at h <;> simp_all
      split at h <;> simp_all
    · intro h
      rw [if_pos h]
  · intro hu hlt hor
    rw [if_neg (by omega)]
    rcases hor with h0 | hth
    · rw [if_pos ⟨hu, h0⟩]
    · by_cases h0 : deriveFailureSafety qset failureSafety mixed = 0
      · rw [if_pos ⟨hu, h0⟩]
      · rw [if_neg (by intro hc; exact h0 hc.2), if_pos ⟨hu, hth⟩]
  · intro hfs hu hv
    have hd : deriveFailureSafety qset failureSafety mixed = 0 := by
      unfold deriveFailureSafety
      rw [if_neg (by omega), hfs]
    rw [if_neg (by omega), if_pos ⟨hu, hd⟩]

/-- C2 witness: a one-validator flat root with `FAILURE_SAFETY = 0`, no unsafe
override and v-blocking size 1 fails with "SCP unsafe", and the incompatibility
error occurs exactly when the bound reaches the v-blocking size. -/
theorem validateConfig_failure_modes_witness :
    (validateConfig (SCPQuorumSet.mk 1 ["a"] []) 0 false false 1 true =
        .error "FAILURE_SAFETY incompatible with QUORUM_SET" ↔
      ((1 : Nat) : Int) ≤ deriveFailureSafety (SCPQuorumSet.mk 1 ["a"] []) 0 false) ∧
    (false = false →
      deriveFailureSafety (SCPQuorumSet.mk 1 ["a"] []) 0 false < ((1 : Nat) : Int) →
      (deriveFailureSafety (SCPQuorumSet.mk 1 ["a"] []) 0 false = 0 ∨
        (SCPQuorumSet.mk 1 ["a"] []).threshold <
          computeDefaultThreshold (SCPQuorumSet.mk 1 ["a"] []) (!false)) →
      validateConfig (SCPQuorumSet.mk 1 ["a"] []) 0 false false 1 true =
        .error "SCP unsafe") ∧
    ((0 : Int) = 0 → false = false → 1 ≤ 1 →
      validateConfig (SCPQuorumSet.mk 1 ["a"] []) 0 false false 1 true =
        .error "SCP unsafe") :=
  validateConfig_failure_modes (SCPQuorumSet.mk 1 ["a"] []) 0 false false 1 true
    (by simp [forAllNodesList])

/-- C9 counterexample: with `NODE_IS_VALIDATOR = true` but an empty validator
list and an explicit `QUORUM_SET` key, `processConfig` skips
`addSelfToValidators` entirely: no "self" entry is synthesized and no error is
raised even though the node's home domain has no declared quality. -/
theorem addSelfStep_skipped :
    addSelfStep true true [] [] "dom" "KEY" = .ok ([] : List ValidatorEntry) ∧
    (List.lookup "dom" ([] : List (String × ValidatorQuality))) = none := by
  constructor
  · rfl
  · rfl

/-- C9 (amended): when the node is a validator and it is not the case that the
validator list is empty with an explicit `QUORUM_SET` supplied, configuration
load appends a "self" entry carrying the local identity and the quality
declared for the node's home domain, and fails fatally when that domain has no
declared quality. -/
theorem addSelfStep_adds_self (nodeIsValidator hasQuorumSetKey : Bool)
    (validators : List ValidatorEntry) (dqm : List (String × ValidatorQuality))
    (dom : String) (key : PublicKey) (hv : nodeIsValidator = true)
    (hguard : ¬ (validators.length = 0 ∧ hasQuorumSetKey = true)) :
    (∀ q, dqm.lookup dom = some q →
      addSelfStep nodeIsValidator hasQuorumSetKey validators dqm dom key =
        .ok (validators ++ [⟨"self", key, dom, q, false⟩])) ∧
    (dqm.lookup dom = none →
      addSelfStep nodeIsValidator hasQuorumSetKey validators dqm dom key =
        .error "Must specify a matching HOME_DOMAINS for self") := by
  unfold addSelfStep addSelfToValidators
  rw [if_pos ⟨hv, hguard⟩]
  constructor
  · intro q hq
    rw [hq]
  · intro hq
    rw [hq]

/-- C9 witness: with one declared domain quality, the "self" entry inherits
it; the guard is satisfied because no explicit `QUORUM_SET` is present. -/
theorem addSelfStep_adds_self_witness :
    addSelfStep true false [] [("d", ValidatorQuality.VALIDATOR_MED_QUALITY)] "d" "KEY" =
      .ok ([] ++ [⟨"self", "KEY", "d", ValidatorQuality.VALIDATOR_MED_QUALITY, false⟩]) :=
  (addSelfStep_adds_self true false [] [("d", ValidatorQuality.VALIDATOR_MED_QUALITY)]
    "d" "KEY" rfl (by simp)).1 ValidatorQuality.VALIDATOR_MED_QUALITY rfl

/-- C10: when the auto-generated quorum set and the explicitly supplied
`QUORUM_SET` both parse, the override check fails with "SCP unsafe" exactly
when the rendered forms differ, the validator list is non-empty and
`UNSAFE_QUORUM` is not set; when the rendered forms match or the validator
list is empty the parsed set is accepted. -/
theorem quorumSetOverrideStep_spec (render : SCPQuorumSet → String) (unsafeQuorum : Bool)
    (validators : List ValidatorEntry) (group : TomlTable) (autoQSet qset : SCPQuorumSet)
    (hgen : generateQuorumSet validators = .ok autoQSet)
    (hload : loadQset group 0 = .ok qset) :
    (quorumSetOverrideStep render unsafeQuorum validators group = .error "SCP unsafe" ↔
      (render qset ≠ render autoQSet ∧ validators.length ≠ 0 ∧ unsafeQuorum = false)) ∧
    ((render qset = render autoQSet ∨ validators.length = 0) →
      quorumSetOverrideStep render unsafeQuorum validators group = .ok qset) := by
  unfold quorumSetOverrideStep
  rw [hgen, hload]
  dsimp only
  constructor
  · constructor
    · intro h
      by_contra hc
      rw [if_neg hc] at h
      simp at h
    · intro h
      rw [if_pos h]
  · intro h
    rw [if_neg (by rcases h with h | h <;> intro hc <;> simp_all)]

/-- C10 witness: one MEDIUM-quality validator and an explicit `QUORUM_SET`
whose rendered form necessarily matches (the parsed and generated sets are
equal), so the override check accepts. -/
theorem quorumSetOverrideStep_spec_witness :
    quorumSetOverrideStep (fun _ => "r") false
      [⟨"n1", "K1", "d1", ValidatorQuality.VALIDATOR_MED_QUALITY, false⟩]
      [("VALIDATORS", TomlValue.vStrArr ["K1"])] = .ok (SCPQuorumSet.mk 1 ["K1"] []) := by
  have hgen : generateQuorumSet
      [⟨"n1", "K1", "d1", ValidatorQuality.VALIDATOR_MED_QUALITY, false⟩] =
      .ok (SCPQuorumSet.mk 1 ["K1"] []) := by
    simp [generateQuorumSet, generateQuorumSetHelper, sortValidators, List.insertionSort,
      List.orderedInsert, normalizeQSet, qsetNode, innerSetOf, computeDefaultThreshold,
      topSize, ValidatorQuality.toNat, List.takeWhile, List.dropWhile, List.find?,
      SCPQuorumSet.validators, SCPQuorumSet.innerSets, SCPQuorumSet.threshold]
  have hload : loadQset [("VALIDATORS", TomlValue.vStrArr ["K1"])] 0 =
      .ok (SCPQuorumSet.mk 1 ["K1"] []) := by
    simp [loadQset, loadQsetLoop, computeThresholdFromPercent]
  exact (quorumSetOverrideStep_spec (fun _ => "r") false
    [⟨"n1", "K1", "d1", ValidatorQuality.VALIDATOR_MED_QUALITY, false⟩]
    [("VALIDATORS", TomlValue.vStrArr ["K1"])]
    (SCPQuorumSet.mk 1 ["K1"] []) (SCPQuorumSet.mk 1 ["K1"] []) hgen hload).2 (Or.inl rfl)

theorem loadQsetLoop_ok (items : TomlTable) (level : Nat) :
    ∀ (tp : Nat) (vals : List PublicKey) (inners : List SCPQuorumSet)
      (out : Nat × List PublicKey × List SCPQuorumSet),
      loadQsetLoop items level tp vals inners = .ok out →
      (1 ≤ tp → tp ≤ 100 → 1 ≤ out.1 ∧ out.1 ≤ 100) ∧
      (∀ s ∈ out.2.2, s ∈ inners ∨ ∃ sub, loadQset sub (level + 1) = .ok s) := by
  induction items with
  | nil =>
    intro tp vals inners out h
    rw [loadQsetLoop.eq_def] at h
    dsimp only at h
    injection h with h
    subst h
    exact ⟨fun h1 h2 => ⟨h1, h2⟩, fun s hs => Or.inl hs⟩
  | cons item rest ih =>
    intro tp vals inners out h
    obtain ⟨k, val⟩ := item
    rw [loadQsetLoop.eq_def] at h
    dsimp only at h
    by_cases hk : k = "THRESHOLD_PERCENT"
    · rw [if_pos hk] at h
      cases val with
      | vInt f =>
        dsimp only at h
        by_cases hf : f ≤ 0 ∨ 100 < f
        · rw [if_pos hf] at h
          exact absurd h (by simp)
        · rw [if_neg hf] at h
          have hres := ih _ _ _ _ h
          exact ⟨fun _ _ => hres.1 (by omega) (by omega), hres.2⟩
      | vStrArr ss => exact absurd h (by simp)
      | vTable sub => exact absurd h (by simp)
    · rw [if_neg hk] at h
      by_cases hk2 : k = "VALIDATORS"
      · rw [if_pos hk2] at h
        cases val with
        | vStrArr ss =>
          dsimp only at h
          exact ih _ _ _ _ h
        | vInt f => exact absurd h (by simp)
        | vTable sub => exact absurd h (by simp)
      · rw [if_neg hk2] at h
        cases val with
        | vInt f => exact absurd h (by simp)
        | vStrArr ss => exact absurd h (by simp)
        | vTable sub =>
          dsimp only at h
          cases hsub : loadQset sub (level + 1) with
          | error e =>
            rw [hsub] at h
            exact absurd h (by simp)
          | ok qsub =>
            rw [hsub] at h
            have hres := ih _ _ _ _ h
            refine ⟨hres.1, fun s hs => ?_⟩
            rcases hres.2 s hs with hmem | hex
            · rcases List.mem_append.mp hmem with h1 | h1
              · exact Or.inl h1
              · rw [List.mem_singleton] at h1
                subst h1
                exact Or.inr ⟨sub, hsub⟩
            · exact Or.inr hex

theorem loadQset_ok_shape (items : TomlTable) (level : Nat) (q : SCPQuorumSet)
    (h : loadQset items level = .ok q) :
    qsetNodeOk q ∧ ∀ s ∈ q.innerSets, ∃ sub, loadQset sub (level + 1) = .ok s := by
  rw [loadQset.eq_def] at h
  by_cases hl : level > 2
  · rw [if_pos hl] at h
    exact absurd h (by simp)
  · rw [if_neg hl] at h
    cases hloop : loadQsetLoop items level 67 [] [] with
    | error e =>
      rw [hloop] at h
      exact absurd h (by simp)
    | ok out =>
      rw [hloop] at h
      obtain ⟨tp2, vals2, inners2⟩ := out
      dsimp only at h
      by_cases hre : computeThresholdFromPercent (vals2.length + inners2.length) tp2 = 0 ∨
          (vals2.length = 0 ∧ inners2.length = 0)
      · rw [if_pos hre] at h
        exact absurd h (by simp)
      · rw [if_neg hre] at h
        injection h with h
        subst h
        have hlp := loadQsetLoop_ok items level tp2 vals2 inners2
        have hlp2 := (loadQsetLoop_ok items level 67 [] [] (tp2, vals2, inners2) hloop)
        have htp : 1 ≤ tp2 ∧ tp2 ≤ 100 := hlp2.1 (by omega) (by omega)
        have hn : 1 ≤ vals2.length + inners2.length := by
          by_contra hc
          exact hre (Or.inr (by omega))
        constructor
        · refine ⟨?_, ?_, ?_⟩
          · show 1 ≤ (SCPQuorumSet.mk _ vals2 inners2).threshold
            simp only [SCPQuorumSet.threshold, computeThresholdFromPercent]
            omega
          · show (SCPQuorumSet.mk _ vals2 inners2).threshold ≤
              topSize (SCPQuorumSet.mk _ vals2 inners2)
            simp only [SCPQuorumSet.threshold, topSize, SCPQuorumSet.validators,
              SCPQuorumSet.innerSets, computeThresholdFromPercent]
            have hmul : (vals2.length + inners2.length) * tp2 ≤
                (vals2.length + inners2.length) * 100 :=
              Nat.mul_le_mul_left _ htp.2
            omega
          · show 1 ≤ topSize (SCPQuorumSet.mk _ vals2 inners2)
            simp only [topSize, SCPQuorumSet.validators, SCPQuorumSet.innerSets]
            omega
        · intro s hs
          simp only [SCPQuorumSet.innerSets] at hs
          rcases hlp2.2 s hs with hmem | hex
          · simp at hmem
          · exact hex

theorem loadQset_level_gt_two (items : TomlTable) (level : Nat) (q : SCPQuorumSet)
    (hl : level > 2) (h : loadQset items level = .ok q) : False := by
  rw [loadQset.eq_def] at h
  rw [if_pos hl] at h
  exact absurd h (by simp)

/-- C8: every quorum-set tree accepted by the manual parser at the root level
satisfies, at every node, the `QuorumSetNode` invariant (threshold at least 1,
threshold at most the number of direct children, at least one child), and its
nesting is capped at 3 levels (nodes at depth 2 have no inner sets). -/
theorem loadQset_wellFormed (items : TomlTable) (q : SCPQuorumSet)
    (h : loadQset items 0 = .ok q) : qsetWellFormed3 q := by
  obtain ⟨h0, hch0⟩ := loadQset_ok_shape items 0 q h
  refine ⟨h0, fun s hs => ?_⟩
  obtain ⟨sub1, hsub1⟩ := hch0 s hs
  obtain ⟨h1, hch1⟩ := loadQset_ok_shape sub1 1 s hsub1
  refine ⟨h1, fun t ht => ?_⟩
  obtain ⟨sub2, hsub2⟩ := hch1 t ht
  obtain ⟨h2, hch2⟩ := loadQset_ok_shape sub2 2 t hsub2
  refine ⟨h2, ?_⟩
  have : t.innerSets = [] := by
    rw [List.eq_nil_iff_forall_not_mem]
    intro u hu
    obtain ⟨sub3, hsub3⟩ := hch2 u hu
    exact loadQset_level_gt_two sub3 3 u (by omega) hsub3
  rw [this]
  rfl

/-- C8 witness: a two-level group (one nested table plus a flat validator)
parses and the result satisfies the full invariant. -/
theorem loadQset_wellFormed_witness :
    qsetWellFormed3 (SCPQuorumSet.mk 2 ["K0"] [SCPQuorumSet.mk 2 ["K1", "K2"] []]) :=
  loadQset_wellFormed
    [("a", TomlValue.vTable [("VALIDATORS", TomlValue.vStrArr ["K1", "K2"])]),
      ("VALIDATORS", TomlValue.vStrArr ["K0"])]
    (SCPQuorumSet.mk 2 ["K0"] [SCPQuorumSet.mk 2 ["K1", "K2"] []])
    (by simp [loadQset, loadQsetLoop, computeThresholdFromPercent])

theorem takeWhile_head_eq {α : Type} (p : α → Bool) (l : List α) (a : α) (t : List α)
    (h : l.takeWhile p = a :: t) : (∃ t2, l = a :: t2) ∧ p a = true := by
  cases l with
  | nil => simp at h
  | cons b s =>
    rw [List.takeWhile_cons] at h
    by_cases hb : p b = true
    · rw [if_pos hb] at h
      injection h with h1 h2
      subst h1
      exact ⟨⟨s, rfl⟩, hb⟩
    · rw [if_neg hb] at h
      simp at h

theorem innerSetOf_eq_spec (run : List ValidatorEntry) :
    innerSetOf run = SCPQuorumSet.mk (computeThreshold run.length false)
      (run.map ValidatorEntry.mKey) [] := by
  unfold innerSetOf
  congr 1
  unfold computeDefaultThreshold computeThreshold topSize
  simp only [SCPQuorumSet.validators, SCPQuorumSet.innerSets, List.length_map,
    List.length_nil, Nat.add_zero]
  by_cases h0 : run.length = 0
  · rw [if_pos h0, if_pos h0]
  · simp [h0]

theorem qsetNode_eq_spec (inners : List SCPQuorumSet) :
    qsetNode inners = SCPQuorumSet.mk (computeThreshold inners.length true) [] inners := by
  unfold qsetNode
  congr 1
  unfold computeDefaultThreshold computeThreshold topSize
  simp only [SCPQuorumSet.validators, SCPQuorumSet.innerSets, List.length_nil, Nat.zero_add]
  by_cases h0 : inners.length = 0
  · rw [if_pos h0, if_pos h0]
  · simp [h0]

theorem domainChunks_cons (v : ValidatorEntry) (run2 s : List ValidatorEntry)
    (hall : ∀ w ∈ v :: run2, (w.mHomeDomain == v.mHomeDomain) = true)
    (hs1 : s.takeWhile (fun w => w.mHomeDomain == v.mHomeDomain) = [])
    (hs2 : s.dropWhile (fun w => w.mHomeDomain == v.mHomeDomain) = s) :
    domainChunks ((v :: run2) ++ s) = (v :: run2) :: domainChunks s := by
  rw [List.cons_append, domainChunks.eq_def]
  dsimp only
  rw [← List.cons_append]
  rw [takeWhile_append_all _ _ _ hall, hs1, dropWhile_append_all _ _ _ hall, hs2]
  simp

theorem specGenHelper_nil (q : ValidatorQuality) : specGenHelper [] q = qsetNode [] := by
  rw [specGenHelper.eq_def]
  dsimp only [List.dropWhile, List.takeWhile]
  rw [domainChunks.eq_def]
  rw [qsetNode_eq_spec]
  rfl

theorem specGenHelper_tail (v : ValidatorEntry) (rest : List ValidatorEntry)
    (q : ValidatorQuality) (hvq : ¬ v.mQuality = q) :
    specGenHelper (v :: rest) q = qsetNode [specGenHelper (v :: rest) v.mQuality] := by
  have hpq : ((fun w => w.mQuality == q) v) = false := by simp [hvq]
  rw [specGenHelper.eq_def]
  split
  · rename_i heq
    rw [dropWhile_cons_neg (fun w => w.mQuality == q) v rest hpq] at heq
    exact absurd heq (by simp)
  · rename_i w rest2 heq
    rw [dropWhile_cons_neg (fun w => w.mQuality == q) v rest hpq] at heq
    injection heq with h1 h2
    subst h1
    subst h2
    rw [takeWhile_cons_neg (fun w => w.mQuality == q) v rest hpq]
    rw [domainChunks.eq_def]
    rw [qsetNode_eq_spec]
    rfl

theorem specGenHelper_chunk (v : ValidatorEntry) (rest : List ValidatorEntry)
    (q : ValidatorQuality) (hq : v.mQuality = q)
    (hrunq : ∀ w ∈ (v :: rest).takeWhile (fun w => w.mHomeDomain == v.mHomeDomain),
      w.mQuality = q) :
    specGenHelper (v :: rest) q =
      qsetNode
        (innerSetOf ((v :: rest).takeWhile (fun w => w.mHomeDomain == v.mHomeDomain)) ::
          (specGenHelper ((v :: rest).dropWhile (fun w => w.mHomeDomain == v.mHomeDomain))
              q).innerSets) := by
  have hsplit :
      (v :: rest).takeWhile (fun w => w.mHomeDomain == v.mHomeDomain) ++
        (v :: rest).dropWhile (fun w => w.mHomeDomain == v.mHomeDomain) = v :: rest :=
    List.takeWhile_append_dropWhile _ _
  have hrun_pd : ∀ w ∈ (v :: rest).takeWhile (fun w => w.mHomeDomain == v.mHomeDomain),
      ((fun w => w.mHomeDomain == v.mHomeDomain) w) = true :=
    mem_takeWhile_pred _ _
  have hrun_pq : ∀ w ∈ (v :: rest).takeWhile (fun w => w.mHomeDomain == v.mHomeDomain),
      ((fun w => w.mQuality == q) w) = true := by
    intro w hw
    simp [hrunq w hw]
  have hrem_head : ∀ a t2,
      (v :: rest).dropWhile (fun w => w.mHomeDomain == v.mHomeDomain) = a :: t2 →
      ((fun w => w.mHomeDomain == v.mHomeDomain) a) = false := by
    intro a t2 h2
    exact dropWhile_head_false (fun w => w.mHomeDomain == v.mHomeDomain) (v :: rest) a t2 h2
  have hrun_cons :
      (v :: rest).takeWhile (fun w => w.mHomeDomain == v.mHomeDomain) =
        v :: rest.takeWhile (fun w => w.mHomeDomain == v.mHomeDomain) := by
    rw [List.takeWhile_cons, if_pos (by simp)]
  -- the tier of `v :: rest` is the current domain run followed by the tier of
  -- the remainder, and both trees branch on the same scrutinee
  have htake : (v :: rest).takeWhile (fun w => w.mQuality == q) =
      (v :: rest).takeWhile (fun w => w.mHomeDomain == v.mHomeDomain) ++
        ((v :: rest).dropWhile (fun w => w.mHomeDomain == v.mHomeDomain)).takeWhile
          (fun w => w.mQuality == q) := by
    conv_lhs => rw [← hsplit]
    exact takeWhile_append_all _ _ _ hrun_pq
  have hdrop : (v :: rest).dropWhile (fun w => w.mQuality == q) =
      ((v :: rest).dropWhile (fun w => w.mHomeDomain == v.mHomeDomain)).dropWhile
        (fun w => w.mQuality == q) := by
    conv_lhs => rw [← hsplit]
    exact dropWhile_append_all _ _ _ hrun_pq
  -- the remainder's tier starts (if at all) with a different home domain
  have hsprops :
      (((v :: rest).dropWhile (fun w => w.mHomeDomain == v.mHomeDomain)).takeWhile
          (fun w => w.mQuality == q)).takeWhile
        (fun w => w.mHomeDomain == v.mHomeDomain) = [] ∧
      (((v :: rest).dropWhile (fun w => w.mHomeDomain == v.mHomeDomain)).takeWhile
          (fun w => w.mQuality == q)).dropWhile
        (fun w => w.mHomeDomain == v.mHomeDomain) =
        ((v :: rest).dropWhile (fun w => w.mHomeDomain == v.mHomeDomain)).takeWhile
          (fun w => w.mQuality == q) := by
    cases hcs : ((v :: rest).dropWhile (fun w => w.mHomeDomain == v.mHomeDomain)).takeWhile
        (fun w => w.mQuality == q) with
    | nil => simp
    | cons a t2 =>
      obtain ⟨⟨t3, hrm⟩, hpa⟩ := takeWhile_head_eq _ _ _ _ hcs
      have hpd := hrem_head a t3 hrm
      exact ⟨takeWhile_cons_neg _ _ _ hpd, dropWhile_cons_neg _ _ _ hpd⟩
  have hchunks : domainChunks ((v :: rest).takeWhile (fun w => w.mQuality == q)) =
      (v :: rest).takeWhile (fun w => w.mHomeDomain == v.mHomeDomain) ::
        domainChunks
          (((v :: rest).dropWhile (fun w => w.mHomeDomain == v.mHomeDomain)).takeWhile
            (fun w => w.mQuality == q)) := by
    rw [htake]
    conv_lhs => rw [hrun_cons]
    rw [domainChunks_cons v (rest.takeWhile (fun w => w.mHomeDomain == v.mHomeDomain)) _
      (by rw [← hrun_cons]; exact hrun_pd) hsprops.1 hsprops.2]
    rw [← hrun_cons]
  -- now evaluate both specGenHelper applications
  rw [specGenHelper.eq_def]
  split
  · rename_i heq
    rw [hdrop] at heq
    rw [specGenHelper.eq_def
      (((v :: rest).dropWhile (fun w => w.mHomeDomain == v.mHomeDomain))) q]
    split
    · dsimp only
      rw [hchunks, qsetNode_eq_spec, innerSetOf_eq_spec]
      rw [SCPQuorumSet.innerSets]
      simp [List.map_cons]
    · rename_i w rest2 heq2
      rw [heq] at heq2
      exact absurd heq2 (by simp)
  · rename_i w rest2 heq
    rw [hdrop] at heq
    rw [specGenHelper.eq_def
      (((v :: rest).dropWhile (fun w => w.mHomeDomain == v.mHomeDomain))) q]
    split
    · rename_i heq2
      rw [heq] at heq2
      exact absurd heq2 (by simp)
    · rename_i w2 rest3 heq2
      rw [heq] at heq2
      injection heq2 with h1 h2
      subst h1
      subst h2
      dsimp only
      rw [hchunks, qsetNode_eq_spec, innerSetOf_eq_spec]
      rw [SCPQuorumSet.innerSets]
      simp [List.map_cons, List.cons_append]

theorem generateQuorumSetHelper_eq_spec (l : List ValidatorEntry) (q : ValidatorQuality) :
    ∀ ret, generateQuorumSetHelper l q = .ok ret → ret = specGenHelper l q := by
  induction l, q using generateQuorumSetHelper.induct with
  | case1 x =>
    intro ret h
    rw [generateQuorumSetHelper.eq_def] at h
    dsimp only at h
    injection h with h
    subst h
    exact (specGenHelper_nil x).symm
  | case2 v rest run w hfind =>
    intro ret h
    rw [generateQuorumSetHelper.eq_def] at h
    dsimp only at h
    rw [if_pos rfl] at h
    unfold run at hfind
    rw [hfind] at h
    simp at h
  | case3 v rest run hfind hred =>
    intro ret h
    rw [generateQuorumSetHelper.eq_def] at h
    dsimp only at h
    rw [if_pos rfl] at h
    unfold run at hfind hred
    rw [hfind] at h
    dsimp only at h
    rw [if_pos hred] at h
    simp at h
  | case4 v rest run remaining hfind hred e herr ih =>
    intro ret h
    rw [generateQuorumSetHelper.eq_def] at h
    dsimp only at h
    rw [if_pos rfl] at h
    unfold run at hfind hred
    unfold remaining at herr
    rw [hfind] at h
    dsimp only at h
    rw [if_neg hred, herr] at h
    simp at h
  | case5 v rest run remaining hfind hred qq hok ih =>
    intro ret h
    rw [generateQuorumSetHelper.eq_def] at h
    dsimp only at h
    rw [if_pos rfl] at h
    unfold run at hfind hred
    unfold remaining at hok ih
    rw [hfind] at h
    dsimp only at h
    rw [if_neg hred, hok] at h
    dsimp only at h
    injection h with h
    subst h
    rw [ih qq hok]
    exact (specGenHelper_chunk v rest v.mQuality rfl (by
      intro w hw
      have hthis := List.find?_eq_none.mp hfind w hw
      simp at hthis
      exact hthis)).symm
  | case6 v rest curQuality hne hasc =>
    intro ret h
    rw [generateQuorumSetHelper.eq_def] at h
    dsimp only at h
    rw [if_neg hne, if_pos hasc] at h
    simp at h
  | case7 v rest curQuality hne hasc e herr ih =>
    intro ret h
    rw [generateQuorumSetHelper.eq_def] at h
    dsimp only at h
    rw [if_neg hne, if_neg hasc, herr] at h
    simp at h
  | case8 v rest curQuality hne hasc qq hok ih =>
    intro ret h
    rw [generateQuorumSetHelper.eq_def] at h
    dsimp only at h
    rw [if_neg hne, if_neg hasc, hok] at h
    dsimp only at h
    injection h with h
    subst h
    rw [ih qq hok]
    exact (specGenHelper_tail v rest curQuality hne).symm

/-- C3: for every non-empty validator list, `generateQuorumSet` sorts the
validators by quality descending then home domain ascending, and whenever tree
construction succeeds, the pre-normalization tree is exactly the structure the
spec describes (`specGenHelper` on the sorted list): in order, one flat inner
set per contiguous same-home-domain run of the current quality tier, each
holding that run's keys with threshold `computeThreshold(n, SimpleMajority)`,
plus one recursively built inner set when strictly lower-quality validators
remain, the node's own threshold being
`computeThreshold(innerSets.len(), Byzantine)`. -/
theorem generateQuorumSet_structure (validators : List ValidatorEntry) (ret : SCPQuorumSet)
    (hne : validators ≠ [])
    (h : generateQuorumSetHelper (sortValidators validators)
      ValidatorQuality.VALIDATOR_HIGH_QUALITY = .ok ret) :
    (sortValidators validators).Perm validators ∧
    List.Sorted validatorBefore (sortValidators validators) ∧
    ret = specGenHelper (sortValidators validators) ValidatorQuality.VALIDATOR_HIGH_QUALITY :=
  ⟨List.perm_insertionSort _ _, List.sorted_insertionSort _ _,
    generateQuorumSetHelper_eq_spec _ _ ret h⟩

/-- C3 witness: three HIGH-quality validators sharing one home domain produce
(before normalization) a single flat inner set with simple-majority threshold
2 under a root with Byzantine threshold 1 (spec Scenario B). -/
theorem generateQuorumSet_structure_witness :
    (sortValidators
      [⟨"v1", "K1", "d", ValidatorQuality.VALIDATOR_HIGH_QUALITY, true⟩,
        ⟨"v2", "K2", "d", ValidatorQuality.VALIDATOR_HIGH_QUALITY, true⟩,
        ⟨"v3", "K3", "d", ValidatorQuality.VALIDATOR_HIGH_QUALITY, true⟩]).Perm
      [⟨"v1", "K1", "d", ValidatorQuality.VALIDATOR_HIGH_QUALITY, true⟩,
        ⟨"v2", "K2", "d", ValidatorQuality.VALIDATOR_HIGH_QUALITY, true⟩,
        ⟨"v3", "K3", "d", ValidatorQuality.VALIDATOR_HIGH_QUALITY, true⟩] ∧
    List.Sorted validatorBefore
      (sortValidators
        [⟨"v1", "K1", "d", ValidatorQuality.VALIDATOR_HIGH_QUALITY, true⟩,
          ⟨"v2", "K2", "d", ValidatorQuality.VALIDATOR_HIGH_QUALITY, true⟩,
          ⟨"v3", "K3", "d", ValidatorQuality.VALIDATOR_HIGH_QUALITY, true⟩]) ∧
    SCPQuorumSet.mk 1 [] [SCPQuorumSet.mk 2 ["K1", "K2", "K3"] []] =
      specGenHelper
        (sortValidators
          [⟨"v1", "K1", "d", ValidatorQuality.VALIDATOR_HIGH_QUALITY, true⟩,
            ⟨"v2", "K2", "d", ValidatorQuality.VALIDATOR_HIGH_QUALITY, true⟩,
            ⟨"v3", "K3", "d", ValidatorQuality.VALIDATOR_HIGH_QUALITY, true⟩])
        ValidatorQuality.VALIDATOR_HIGH_QUALITY :=
  generateQuorumSet_structure
    [⟨"v1", "K1", "d", ValidatorQuality.VALIDATOR_HIGH_QUALITY, true⟩,
      ⟨"v2", "K2", "d", ValidatorQuality.VALIDATOR_HIGH_QUALITY, true⟩,
      ⟨"v3", "K3", "d", ValidatorQuality.VALIDATOR_HIGH_QUALITY, true⟩]
    (SCPQuorumSet.mk 1 [] [SCPQuorumSet.mk 2 ["K1", "K2", "K3"] []])
    (by simp)
    (by
      simp [sortValidators, List.insertionSort, List.orderedInsert, validatorBefore,
        ValidatorQuality.toNat, generateQuorumSetHelper, qsetNode, innerSetOf,
        computeDefaultThreshold, topSize, SCPQuorumSet.validators, SCPQuorumSet.innerSets,
        List.takeWhile, List.dropWhile, List.find?])

theorem takeWhile_append_stop {α : Type} (p : α → Bool) (xs ys : List α)
    (h : xs.dropWhile p ≠ []) :
    (xs ++ ys).takeWhile p = xs.takeWhile p := by
  induction xs with
  | nil => simp at h
  | cons a t ih =>
    rw [List.dropWhile_cons] at h
    rw [List.cons_append, List.takeWhile_cons, List.takeWhile_cons]
    split at h
    · rename_i hpa
      rw [if_pos hpa, if_pos hpa, ih h]
    · rename_i hpa
      rw [if_neg hpa, if_neg hpa]

theorem dropWhile_append_stop {α : Type} (p : α → Bool) (xs ys : List α)
    (h : xs.dropWhile p ≠ []) :
    (xs ++ ys).dropWhile p = xs.dropWhile p ++ ys := by
  induction xs with
  | nil => simp at h
  | cons a t ih =>
    rw [List.dropWhile_cons] at h
    rw [List.cons_append, List.dropWhile_cons, List.dropWhile_cons]
    split at h
    · rename_i hpa
      rw [if_pos hpa, if_pos hpa, ih h]
    · rename_i hpa
      rw [if_neg hpa, if_neg hpa, List.cons_append]

theorem mem_of_mem_takeWhile {α : Type} (p : α → Bool) (l : List α) (x : α)
    (h : x ∈ l.takeWhile p) : x ∈ l := by
  induction l with
  | nil => simp at h
  | cons a t ih =>
    rw [List.takeWhile_cons] at h
    split at h
    · rcases List.mem_cons.mp h with h1 | h1
      · exact h1 ▸ List.mem_cons_self a t
      · exact List.mem_cons_of_mem a (ih h1)
    · simp at h

theorem mem_of_mem_dropWhile {α : Type} (p : α → Bool) (l : List α) (x : α)
    (h : x ∈ l.dropWhile p) : x ∈ l := by
  induction l with
  | nil => simp at h
  | cons a t ih =>
    rw [List.dropWhile_cons] at h
    split at h
    · exact List.mem_cons_of_mem a (ih h)
    · exact h

theorem getLast?_dropWhile_eq {α : Type} (p : α → Bool) (l : List α) (w : α)
    (h : (l.dropWhile p).getLast? = some w) : l.getLast? = some w := by
  induction l with
  | nil => simp at h
  | cons a t ih =>
    rw [List.dropWhile_cons] at h
    split at h
    · have ht := ih h
      cases t with
      | nil => simp at ht
      | cons b t2 =>
        rw [List.getLast?_cons_cons]
        exact ht
    · exact h

theorem getLast?_some_mem {α : Type} (l : List α) (h : l ≠ []) :
    ∃ a, l.getLast? = some a ∧ a ∈ l := by
  induction l with
  | nil => exact absurd rfl h
  | cons a t ih =>
    cases t with
    | nil => exact ⟨a, by simp, List.mem_singleton_self a⟩
    | cons b t2 =>
      obtain ⟨g, hg, hmem⟩ := ih (by simp)
      exact ⟨g, by rw [List.getLast?_cons_cons]; exact hg, List.mem_cons_of_mem a hmem⟩

theorem quality_high_of_toNat (x : ValidatorQuality) (h : 2 ≤ x.toNat) :
    x = ValidatorQuality.VALIDATOR_HIGH_QUALITY := by
  cases x <;> simp_all [ValidatorQuality.toNat]

theorem chunk_eq_run (v : ValidatorEntry) (run2 post : List ValidatorEntry)
    (hrund : ∀ w ∈ v :: run2, w.mHomeDomain = v.mHomeDomain)
    (hpost : ∀ w, post.head? = some w → ¬ w.mHomeDomain = v.mHomeDomain) :
    (v :: (run2 ++ post)).takeWhile (fun w => w.mHomeDomain == v.mHomeDomain) = v :: run2 ∧
    (v :: (run2 ++ post)).dropWhile (fun w => w.mHomeDomain == v.mHomeDomain) = post := by
  have hall : ∀ w ∈ v :: run2, ((fun w => w.mHomeDomain == v.mHomeDomain) w) = true := by
    intro w hw
    simp [hrund w hw]
  have h1 : v :: (run2 ++ post) = (v :: run2) ++ post := by simp
  rw [h1, takeWhile_append_all _ _ _ hall, dropWhile_append_all _ _ _ hall]
  cases post with
  | nil => simp
  | cons b t =>
    have hb : ((fun w => w.mHomeDomain == v.mHomeDomain) b) = false := by
      simp [hpost b rfl]
    rw [takeWhile_cons_neg (fun w => w.mHomeDomain == v.mHomeDomain) b t hb,
      dropWhile_cons_neg (fun w => w.mHomeDomain == v.mHomeDomain) b t hb]
    simp

theorem chunk_in_pre (p : ValidatorEntry) (pre2 tail2 : List ValidatorEntry)
    (hstop : (∀ w ∈ p :: pre2, ((fun w => w.mHomeDomain == p.mHomeDomain) w) = true) →
      ∀ w, tail2.head? = some w → ((fun w => w.mHomeDomain == p.mHomeDomain) w) = false) :
    (∀ x ∈ (p :: (pre2 ++ tail2)).takeWhile (fun w => w.mHomeDomain == p.mHomeDomain),
      x ∈ p :: pre2) ∧
    (p :: (pre2 ++ tail2)).dropWhile (fun w => w.mHomeDomain == p.mHomeDomain) =
      ((p :: pre2).dropWhile (fun w => w.mHomeDomain == p.mHomeDomain)) ++ tail2 := by
  have h1 : p :: (pre2 ++ tail2) = (p :: pre2) ++ tail2 := by simp
  rw [h1]
  by_cases hdp : (p :: pre2).dropWhile (fun w => w.mHomeDomain == p.mHomeDomain) = []
  · have hall : ∀ w ∈ p :: pre2, ((fun w => w.mHomeDomain == p.mHomeDomain) w) = true :=
      List.dropWhile_eq_nil_iff.mp hdp
    have htail := hstop hall
    constructor
    · intro x hx
      rw [takeWhile_append_all _ _ _ hall] at hx
      cases tail2 with
      | nil => simpa using hx
      | cons b t =>
        rw [takeWhile_cons_neg (fun w => w.mHomeDomain == p.mHomeDomain) b t (htail b rfl)] at hx
        simpa using hx
    · rw [dropWhile_append_all _ _ _ hall, hdp]
      cases tail2 with
      | nil => simp
      | cons b t =>
        rw [dropWhile_cons_neg (fun w => w.mHomeDomain == p.mHomeDomain) b t (htail b rfl)]
        simp
  · constructor
    · intro x hx
      rw [takeWhile_append_stop _ _ _ hdp] at hx
      exact mem_of_mem_takeWhile _ _ _ hx
    · exact dropWhile_append_stop _ _ _ hdp

theorem stop_of_pre (v0 v1 : ValidatorEntry) (pre2 run2 post : List ValidatorEntry)
    (hpre : ∀ w, (v0 :: pre2).getLast? = some w → ¬ w.mHomeDomain = v1.mHomeDomain) :
    (∀ w2 ∈ v0 :: pre2, ((fun w2 => w2.mHomeDomain == v0.mHomeDomain) w2) = true) →
      ∀ w2, ((v1 :: run2) ++ post).head? = some w2 →
        ((fun w2 => w2.mHomeDomain == v0.mHomeDomain) w2) = false := by
  intro hall w2 hw2
  have hw2v : v1 = w2 := by simpa using hw2
  subst hw2v
  obtain ⟨g, hg, hgmem⟩ := getLast?_some_mem (v0 :: pre2) (by simp)
  have hgd : g.mHomeDomain = v0.mHomeDomain := by simpa using hall g hgmem
  have hnd := hpre g hg
  simp only [beq_eq_false_iff_ne, ne_eq]
  intro hc
  exact hnd (hgd.trans hc.symm)

theorem head_high_of_decomp (v0 : ValidatorEntry) (rest pre run2 post : List ValidatorEntry)
    (v1 : ValidatorEntry)
    (hl : v0 :: rest = pre ++ (v1 :: run2) ++ post)
    (hpreq : ∀ w ∈ pre, w.mQuality = ValidatorQuality.VALIDATOR_HIGH_QUALITY)
    (hv1q : v1.mQuality = ValidatorQuality.VALIDATOR_HIGH_QUALITY) :
    v0.mQuality = ValidatorQuality.VALIDATOR_HIGH_QUALITY := by
  cases pre with
  | nil =>
    simp only [List.nil_append, List.cons_append] at hl
    injection hl with hv0 hrest
    rw [hv0]
    exact hv1q
  | cons p pre2 =>
    simp only [List.cons_append] at hl
    injection hl with hv0 hrest
    rw [hv0]
    exact hpreq p (List.mem_cons_self _ _)

theorem generateQuorumSetHelper_short_high_run (l : List ValidatorEntry)
    (q : ValidatorQuality) :
    q = ValidatorQuality.VALIDATOR_HIGH_QUALITY →
    ∀ (pre run post : List ValidatorEntry) (v : ValidatorEntry),
      l = pre ++ run ++ post →
      run.head? = some v →
      (∀ w ∈ pre, w.mQuality = ValidatorQuality.VALIDATOR_HIGH_QUALITY) →
      (∀ w ∈ run, w.mQuality = ValidatorQuality.VALIDATOR_HIGH_QUALITY) →
      (∀ w ∈ run, w.mHomeDomain = v.mHomeDomain) →
      (∀ w, pre.getLast? = some w → ¬ w.mHomeDomain = v.mHomeDomain) →
      (∀ w, post.head? = some w → ¬ w.mHomeDomain = v.mHomeDomain) →
      run.length < 3 →
      ∃ u : ValidatorEntry, generateQuorumSetHelper l q =
        .error ("High quality validator " ++ u.mName ++
          " must have redundancy of at least 3") := by
  induction l, q using generateQuorumSetHelper.induct with
  | case1 x =>
    intro hq pre run post v hl hhead hpreq hrunq hrund hpre hpost hshort
    cases run with
    | nil => simp at hhead
    | cons v1 run2 =>
      exfalso
      have := congrArg List.length hl
      simp at this
      omega
  | case2 v0 rest chunkR w hfind =>
    intro hq pre run post v hl hhead hpreq hrunq hrund hpre hpost hshort
    exfalso
    cases run with
    | nil => simp at hhead
    | cons v1 run2 =>
    have hv1 : v1 = v := by simpa using hhead
    subst hv1
    unfold chunkR at hfind
    have hwmem := List.mem_of_find?_eq_some hfind
    have hwne : ¬ w.mQuality = v0.mQuality := by simpa using List.find?_some hfind
    cases pre with
    | nil =>
      simp only [List.nil_append, List.cons_append] at hl
      injection hl with hv0 hrest
      subst hrest
      rw [hv0] at hwmem hwne
      obtain ⟨htk, _⟩ := chunk_eq_run v1 run2 post hrund hpost
      rw [htk] at hwmem
      exact hwne (by rw [hrunq w hwmem, hrunq v1 (List.mem_cons_self _ _)])
    | cons p pre2 =>
      simp only [List.cons_append] at hl
      injection hl with hv0 hrest
      subst hv0
      subst hrest
      simp only [List.append_assoc] at hwmem
      obtain ⟨htkmem, _⟩ := chunk_in_pre v0 pre2 ((v1 :: run2) ++ post)
        (stop_of_pre v0 v1 pre2 run2 post hpre)
      have hwpre : w ∈ v0 :: pre2 := htkmem w hwmem
      exact hwne ((hpreq w hwpre).trans (hpreq v0 (List.mem_cons_self _ _)).symm)
  | case3 v0 rest chunkR hfind hred =>
    intro hq pre run post v hl hhead hpreq hrunq hrund hpre hpost hshort
    refine ⟨v0, ?_⟩
    unfold chunkR at hfind hred
    rw [generateQuorumSetHelper.eq_def]
    dsimp only
    rw [if_pos rfl, hfind]
    dsimp only
    rw [if_pos hred]
  | case4 v0 rest chunkR remainingR hfind hred e herr ih =>
    intro hq pre run post v hl hhead hpreq hrunq hrund hpre hpost hshort
    cases run with
    | nil => simp at hhead
    | cons v1 run2 =>
    have hv1 : v1 = v := by simpa using hhead
    subst hv1
    unfold chunkR at hfind hred
    unfold remainingR at herr ih
    cases pre with
    | nil =>
      exfalso
      simp only [List.nil_append, List.cons_append] at hl
      injection hl with hv0 hrest
      subst hrest
      rw [hv0] at hred
      obtain ⟨htk, _⟩ := chunk_eq_run v1 run2 post hrund hpost
      rw [htk] at hred
      exact hred ⟨hshort, hrunq v1 (List.mem_cons_self _ _)⟩
    | cons p pre2 =>
      simp only [List.cons_append] at hl
      injection hl with hv0 hrest
      subst hv0
      subst hrest
      simp only [List.append_assoc] at hfind hred herr ih ⊢
      obtain ⟨_, hdrop⟩ := chunk_in_pre v0 pre2 ((v1 :: run2) ++ post)
        (stop_of_pre v0 v1 pre2 run2 post hpre)
      rw [hdrop] at herr ih
      have hpre2q : ∀ w ∈ (v0 :: pre2).dropWhile
          (fun w => w.mHomeDomain == v0.mHomeDomain),
          w.mQuality = ValidatorQuality.VALIDATOR_HIGH_QUALITY := by
        intro w hw
        exact hpreq w (mem_of_mem_dropWhile _ _ _ hw)
      have hpre2 : ∀ w, ((v0 :: pre2).dropWhile
            (fun w => w.mHomeDomain == v0.mHomeDomain)).getLast? = some w →
          ¬ w.mHomeDomain = v1.mHomeDomain := by
        intro w hw
        exact hpre w (getLast?_dropWhile_eq _ _ _ hw)
      obtain ⟨u, hu⟩ := ih hq ((v0 :: pre2).dropWhile
          (fun w => w.mHomeDomain == v0.mHomeDomain)) (v1 :: run2) post v1 (by simp) rfl
        hpre2q hrunq hrund hpre2 hpost hshort
      refine ⟨u, ?_⟩
      have hu2 := hu
      rw [herr] at hu2
      injection hu2 with he
      rw [generateQuorumSetHelper.eq_def]
      dsimp only
      rw [if_pos rfl, hfind]
      dsimp only
      rw [if_neg hred, hdrop, herr, he]
  | case5 v0 rest chunkR remainingR hfind hred qq hok ih =>
    intro hq pre run post v hl hhead hpreq hrunq hrund hpre hpost hshort
    exfalso
    cases run with
    | nil => simp at hhead
    | cons v1 run2 =>
    have hv1 : v1 = v := by simpa using hhead
    subst hv1
    unfold chunkR at hfind hred
    unfold remainingR at hok ih
    cases pre with
    | nil =>
      simp only [List.nil_append, List.cons_append] at hl
      injection hl with hv0 hrest
      subst hrest
      rw [hv0] at hred
      obtain ⟨htk, _⟩ := chunk_eq_run v1 run2 post hrund hpost
      rw [htk] at hred
      exact hred ⟨hshort, hrunq v1 (List.mem_cons_self _ _)⟩
    | cons p pre2 =>
      simp only [List.cons_append] at hl
      injection hl with hv0 hrest
      subst hv0
      subst hrest
      simp only [List.append_assoc] at hfind hred hok ih
      obtain ⟨_, hdrop⟩ := chunk_in_pre v0 pre2 ((v1 :: run2) ++ post)
        (stop_of_pre v0 v1 pre2 run2 post hpre)
      rw [hdrop] at hok ih
      have hpre2q : ∀ w ∈ (v0 :: pre2).dropWhile
          (fun w => w.mHomeDomain == v0.mHomeDomain),
          w.mQuality = ValidatorQuality.VALIDATOR_HIGH_QUALITY := by
        intro w hw
        exact hpreq w (mem_of_mem_dropWhile _ _ _ hw)
      have hpre2 : ∀ w, ((v0 :: pre2).dropWhile
            (fun w => w.mHomeDomain == v0.mHomeDomain)).getLast? = some w →
          ¬ w.mHomeDomain = v1.mHomeDomain := by
        intro w hw
        exact hpre w (getLast?_dropWhile_eq _ _ _ hw)
      obtain ⟨u, hu⟩ := ih hq ((v0 :: pre2).dropWhile
          (fun w => w.mHomeDomain == v0.mHomeDomain)) (v1 :: run2) post v1 (by simp) rfl
        hpre2q hrunq hrund hpre2 hpost hshort
      rw [hok] at hu
      simp at hu
  | case6 v0 rest curQuality hne hasc =>
    intro hq pre run post v hl hhead hpreq hrunq hrund hpre hpost hshort
    exfalso
    cases run with
    | nil => simp at hhead
    | cons v1 run2 =>
    have hv1 : v1 = v := by simpa using hhead
    subst hv1
    exact hne ((head_high_of_decomp v0 rest pre run2 post v1 hl hpreq
      (hrunq v1 (List.mem_cons_self _ _))).trans hq.symm)
  | case7 v0 rest curQuality hne hasc e hcall ih =>
    intro hq pre run post v hl hhead hpreq hrunq hrund hpre hpost hshort
    exfalso
    cases run with
    | nil => simp at hhead
    | cons v1 run2 =>
    have hv1 : v1 = v := by simpa using hhead
    subst hv1
    exact hne ((head_high_of_decomp v0 rest pre run2 post v1 hl hpreq
      (hrunq v1 (List.mem_cons_self _ _))).trans hq.symm)
  | case8 v0 rest curQuality hne hasc qq hcall ih =>
    intro hq pre run post v hl hhead hpreq hrunq hrund hpre hpost hshort
    exfalso
    cases run with
    | nil => simp at hhead
    | cons v1 run2 =>
    have hv1 : v1 = v := by simpa using hhead
    subst hv1
    exact hne ((head_high_of_decomp v0 rest pre run2 post v1 hl hpreq
      (hrunq v1 (List.mem_cons_self _ _))).trans hq.symm)

/-- C4: during automatic quorum-set generation, any contiguous same-home-domain
run of HIGH-quality validators with fewer than 3 members — maximal, i.e.
flanked in the sorted order by entries of other home domains — causes a fatal
rejection with a "must have redundancy of at least 3" error, wherever in the
sorted list the run sits; in particular no tree with singleton HIGH inner sets
is ever produced. -/
theorem generateQuorumSet_redundancy (validators : List ValidatorEntry)
    (pre run post : List ValidatorEntry) (v : ValidatorEntry)
    (hsort : sortValidators validators = pre ++ run ++ post)
    (hhead : run.head? = some v)
    (hrunq : ∀ w ∈ run, w.mQuality = ValidatorQuality.VALIDATOR_HIGH_QUALITY)
    (hrund : ∀ w ∈ run, w.mHomeDomain = v.mHomeDomain)
    (hpre : ∀ w, pre.getLast? = some w → ¬ w.mHomeDomain = v.mHomeDomain)
    (hpost : ∀ w, post.head? = some w → ¬ w.mHomeDomain = v.mHomeDomain)
    (hshort : run.length < 3) :
    ∃ u : ValidatorEntry, generateQuorumSet validators =
      .error ("High quality validator " ++ u.mName ++
        " must have redundancy of at least 3") := by
  have hv_mem : v ∈ run := by
    cases run with
    | nil => simp at hhead
    | cons a t =>
      have ha : a = v := by simpa using hhead
      rw [← ha]
      exact List.mem_cons_self _ _
  have hsorted : List.Sorted validatorBefore (pre ++ run ++ post) := by
    rw [← hsort]
    exact List.sorted_insertionSort _ _
  have hpreq : ∀ w ∈ pre, w.mQuality = ValidatorQuality.VALIDATOR_HIGH_QUALITY := by
    intro w hw
    have hrel : validatorBefore w v := by
      have h1 := (List.pairwise_append.mp hsorted).1
      exact (List.pairwise_append.mp h1).2.2 w hw v hv_mem
    have hvq := hrunq v hv_mem
    have h2 : 2 ≤ w.mQuality.toNat := by
      have h3 : ValidatorQuality.VALIDATOR_HIGH_QUALITY.toNat = 2 := rfl
      rcases hrel with h | ⟨h, _⟩
      · rw [hvq] at h
        omega
      · rw [hvq] at h
        omega
    exact quality_high_of_toNat _ h2
  obtain ⟨u, hu⟩ := generateQuorumSetHelper_short_high_run (pre ++ run ++ post)
    ValidatorQuality.VALIDATOR_HIGH_QUALITY rfl pre run post v rfl hhead hpreq hrunq
    hrund hpre hpost hshort
  refine ⟨u, ?_⟩
  unfold generateQuorumSet
  rw [hsort, hu]

/-- C4 witness: a 3-member HIGH domain "a" followed by a 2-member HIGH domain
"b" — the short run is in second position, not at the head of the sorted list —
is rejected with the redundancy error. -/
theorem generateQuorumSet_redundancy_witness :
    ∃ u : ValidatorEntry, generateQuorumSet
      [⟨"a1", "K1", "a", ValidatorQuality.VALIDATOR_HIGH_QUALITY, true⟩,
        ⟨"a2", "K2", "a", ValidatorQuality.VALIDATOR_HIGH_QUALITY, true⟩,
        ⟨"a3", "K3", "a", ValidatorQuality.VALIDATOR_HIGH_QUALITY, true⟩,
        ⟨"b1", "K4", "b", ValidatorQuality.VALIDATOR_HIGH_QUALITY, true⟩,
        ⟨"b2", "K5", "b", ValidatorQuality.VALIDATOR_HIGH_QUALITY, true⟩] =
      .error ("High quality validator " ++ u.mName ++
        " must have redundancy of at least 3") :=
  generateQuorumSet_redundancy
    [⟨"a1", "K1", "a", ValidatorQuality.VALIDATOR_HIGH_QUALITY, true⟩,
      ⟨"a2", "K2", "a", ValidatorQuality.VALIDATOR_HIGH_QUALITY, true⟩,
      ⟨"a3", "K3", "a", ValidatorQuality.VALIDATOR_HIGH_QUALITY, true⟩,
      ⟨"b1", "K4", "b", ValidatorQuality.VALIDATOR_HIGH_QUALITY, true⟩,
      ⟨"b2", "K5", "b", ValidatorQuality.VALIDATOR_HIGH_QUALITY, true⟩]
    [⟨"a1", "K1", "a", ValidatorQuality.VALIDATOR_HIGH_QUALITY, true⟩,
      ⟨"a2", "K2", "a", ValidatorQuality.VALIDATOR_HIGH_QUALITY, true⟩,
      ⟨"a3", "K3", "a", ValidatorQuality.VALIDATOR_HIGH_QUALITY, true⟩]
    [⟨"b1", "K4", "b", ValidatorQuality.VALIDATOR_HIGH_QUALITY, true⟩,
      ⟨"b2", "K5", "b", ValidatorQuality.VALIDATOR_HIGH_QUALITY, true⟩]
    []
    ⟨"b1", "K4", "b", ValidatorQuality.VALIDATOR_HIGH_QUALITY, true⟩
    (by
      simp [sortValidators, List.insertionSort, List.orderedInsert, validatorBefore,
        ValidatorQuality.toNat])
    rfl
    (by decide)
    (by decide)
    (by
      intro w hw
      simp at hw
      subst hw
      decide)
    (by
      intro w hw
      simp at hw)
    (by decide)
